import Mathlib

/-!
Shallow embedding of the NSM (Nix Shell Manager) core in Lean 4, together
with theorems settling the frozen claims about its specification.

Embedded components (translated from the Go source):
  * utils/fileutils.go : FileExists, SafeRead, SafeWrite, AcquireLock
    (file system modelled as an association list from path to node;
    failure injection for the write pipeline).
  * utils/nixutils.go  : ExtractShellNixPackages, ExtractFlakePackages
    (the file-reading preamble is dropped; the functions are modelled on
    the content string they parse).
  * cmd/add.go         : the insertion logic of the add command.
  * cmd/remove.go      : removePackagesFromShellNix, removePackagesFromFlake.
  * the settings store : ValidateConfig, isValidVersion, LoadConfig,
    MigrateConfig (viper state modelled as a record of optional fields;
    a key set to nil counts as absent, matching viper.IsSet; the
    Unmarshal step of LoadConfig decodes an untyped state and can fail
    on a value whose shape does not match its field type).

Go string primitives (strings.Split, strings.Join, strings.TrimSpace,
strings.Fields, strings.Contains, strings.Index, filepath.Clean) are
re-implemented structurally over `List Char` so that every definition is
executable by the kernel.  The source content manipulated by the tool is
ASCII, so character positions coincide with Go's byte positions.
-/

deriving instance DecidableEq for Except

namespace NSM

/-! ## Go string primitives over `List Char` -/

/-- Whitespace class of Go (`unicode.IsSpace` restricted to ASCII, which is
all the tool's descriptor content uses): space, tab, newline, carriage
return, vertical tab, form feed. -/
def isGoSpace (c : Char) : Bool :=
  c = ' ' || c = '\t' || c = '\n' || c = '\r' || c = '\x0b' || c = '\x0c'

/-- `strings.Split` at a single-character separator.  Always returns at
least one (possibly empty) segment. -/
def splitChar (sep : Char) : List Char → List (List Char)
  | [] => [[]]
  | c :: rest =>
    if c = sep then [] :: splitChar sep rest
    else
      match splitChar sep rest with
      | l :: ls => (c :: l) :: ls
      | [] => [[c]]

/-- `strings.Split(s, "\n")`. -/
def splitNl : List Char → List (List Char) :=
  splitChar '\n'

/-- `strings.Join(lines, "\n")`. -/
def joinNl : List (List Char) → List Char
  | [] => []
  | [l] => l
  | l :: ls => l ++ '\n' :: joinNl ls

/-- Drop trailing characters satisfying `p`. -/
def dropTrailing (p : Char → Bool) (cs : List Char) : List Char :=
  (cs.reverse.dropWhile p).reverse

/-- `strings.TrimSpace`. -/
def goTrim (cs : List Char) : List Char :=
  dropTrailing isGoSpace (cs.dropWhile isGoSpace)

/-- Accumulator pass for `strings.Fields`. -/
def fieldsAux : List Char → List Char → List (List Char)
  | [], acc => if acc = [] then [] else [acc.reverse]
  | c :: rest, acc =>
    if isGoSpace c then
      if acc = [] then fieldsAux rest []
      else acc.reverse :: fieldsAux rest []
    else fieldsAux rest (c :: acc)

/-- `strings.Fields`: the maximal runs of non-whitespace characters. -/
def goFields (cs : List Char) : List (List Char) :=
  fieldsAux cs []

/-- Index (in characters) of the first occurrence of `sub` in `cs`,
mirroring `strings.Index`.  The content handled by the tool is ASCII, so
this coincides with Go's byte index. -/
def goIndexAux (sub : List Char) : List Char → Nat → Option Nat
  | [], i => if sub = [] then some i else none
  | c :: rest, i =>
    if sub.isPrefixOf (c :: rest) then some i
    else goIndexAux sub rest (i + 1)

/-- `strings.Index cs sub` (character position of the first occurrence). -/
def goIndex (cs sub : List Char) : Option Nat :=
  goIndexAux sub cs 0

/-- `strings.Contains`. -/
def goContains (cs sub : List Char) : Bool :=
  (goIndex cs sub).isSome

/-! ## Atomic file store (utils/fileutils.go, third revision in the file)

The file system is an association list from path to node.  A node is a
regular file (content and permission bits) or a directory.  `os.Stat`
is lookup; `os.Remove` is erase; creating or renaming onto a path is
insert. -/

/-- A file-system node: a regular file (with content and permissions) or a
directory. -/
inductive FsNode
  | file (data : List Char) (perm : Nat)
  | dir
  deriving DecidableEq

/-- The file system: an association list from path to node. -/
def FS := List (String × FsNode)

instance : DecidableEq FS := by
  unfold FS
  infer_instance

/-- `os.Stat`: the node stored at a path, if any. -/
def fsLookup : FS → String → Option FsNode
  | [], _ => none
  | (q, n) :: rest, p => if q = p then some n else fsLookup rest p

/-- Remove every entry at a path (`os.Remove`). -/
def fsErase (fs : FS) (p : String) : FS :=
  fs.filter (fun e => e.1 ≠ p)

/-- Store a node at a path, replacing any previous entry. -/
def fsInsert (fs : FS) (p : String) (n : FsNode) : FS :=
  (p, n) :: fsErase fs p

/-- `FileExists` (fileutils.go:231-242): `os.Stat` succeeds and the node is
not a directory.  Stat errors (including not-exist) yield `false`. -/
def FileExists (fs : FS) (p : String) : Bool :=
  match fsLookup fs p with
  | none => false
  | some .dir => false
  | some (.file _ _) => true

/-- `SafeRead` (fileutils.go:345-367): fails with a does-not-exist error
when `FileExists` is false, otherwise opens and reads the file.  (The
lock acquire/release pair around the read does not change the returned
data and is not part of the state modelled here.) -/
def SafeRead (fs : FS) (p : String) : Except String (List Char) :=
  if FileExists fs p = false then .error s!"file {p} does not exist"
  else
    match fsLookup fs p with
    | some (.file d _) => .ok d
    | _ => .error "failed to open file"

/-- The step of the `SafeWrite` pipeline at which an injected I/O failure
occurs. -/
inductive WStep
  | createTemp
  | writeData
  | syncTemp
  | closeTemp
  | chmodTemp
  | renameTemp
  deriving DecidableEq

/-- `SafeWrite` (fileutils.go:282-343) with failure injection.

Arguments beyond the Go signature: `tmp` is the fresh name chosen by
`os.CreateTemp` (the caller of the model guarantees freshness), `ts` is
the timestamp used for the backup name, and `fail` names the step at
which the underlying I/O fails (`none` for a clean run).

Returns the resulting file system together with `none` on success or
`some msg` mirroring the Go error message.  Directory creation
(`EnsureDir`) does not touch regular-file entries and is modelled as a
no-op.  The best-effort backup copies the old node to
`path.<ts>.backup` before the rename, exactly as `BackupFile` does. -/
def SafeWrite (fs : FS) (path : String) (data : List Char) (perm : Nat)
    (tmp : String) (ts : String) (fail : Option WStep) : FS × Option String :=
  if fail = some .createTemp then (fs, some "failed to create temp file")
  else
    let fs1 := fsInsert fs tmp (.file [] 384)
    if fail = some .writeData then (fsErase fs1 tmp, some "failed to write temp file")
    else
      let fs2 := fsInsert fs1 tmp (.file data 384)
      if fail = some .syncTemp then (fsErase fs2 tmp, some "failed to sync temp file")
      else if fail = some .closeTemp then (fsErase fs2 tmp, some "failed to close temp file")
      else if fail = some .chmodTemp then (fsErase fs2 tmp, some "failed to chmod temp file")
      else
        let fs3 := fsInsert fs2 tmp (.file data perm)
        let fs4 :=
          if FileExists fs3 path then
            match fsLookup fs3 path with
            | some n => fsInsert fs3 (path ++ "." ++ ts ++ ".backup") n
            | none => fs3
          else fs3
        if fail = some .renameTemp then (fsErase fs4 tmp, some "failed to move temp file")
        else (fsInsert (fsErase fs4 tmp) path (.file data perm), none)

/-! ## Lock registry (utils/fileutils.go:227-229, 384-404) -/

/-- One pass of the component walk of `filepath.Clean`: `..` pops the last
output component unless the output is empty (rooted paths drop it, relative
paths keep it) or already ends in `..`; every other component is pushed. -/
def cleanComps (rooted : Bool) : List String → List String → List String
  | [], out => out
  | c :: rest, out =>
    if c = ".." then
      match out with
      | [] =>
        if rooted then cleanComps rooted rest []
        else cleanComps rooted rest [".."]
      | _ =>
        if out.getLast? = some ".." then cleanComps rooted rest (out ++ [".."])
        else cleanComps rooted rest out.dropLast
    else cleanComps rooted rest (out ++ [c])

/-- Split a character list at `/` characters. -/
def splitSlash : List Char → List (List Char) :=
  splitChar '/'

/-- Join components with `/`. -/
def joinSlash : List String → List Char
  | [] => []
  | [l] => l.data
  | l :: ls => l.data ++ '/' :: joinSlash ls

/-- `filepath.Clean` on Unix: purely lexical normalisation.  Empty paths
become `.`; empty and `.` components are dropped; `..` is resolved against
the preceding component. -/
def goClean (p : String) : String :=
  if p.data = [] then "."
  else
    let rooted := p.data.head? = some '/'
    let comps := ((splitSlash p.data).map (fun cs => String.mk cs)).filter
      (fun c => c ≠ "" && c ≠ ".")
    let out := cleanComps rooted comps []
    if rooted then String.mk ('/' :: joinSlash out)
    else if out = [] then "."
    else String.mk (joinSlash out)

/-- The lock registry (`fileLocks sync.Map`): the keys seen so far, each
with the identity of its `FileLock`, plus a counter generating fresh
identities.  The Go runtime allocates a new `*FileLock` per
`LoadOrStore` miss; identity of the returned lock object is modelled by
the natural number. -/
structure LockRegistry where
  entries : List (String × Nat)
  nextId : Nat
  deriving DecidableEq

/-- Lookup in the registry (`sync.Map.Load`). -/
def regFind : List (String × Nat) → String → Option Nat
  | [], _ => none
  | (q, i) :: rest, p => if q = p then some i else regFind rest p

/-- `AcquireLock` (fileutils.go:390-398): normalise the path with
`filepath.Clean` and `LoadOrStore` a lock for it.  Returns the identity of
the lock handed to the caller and the updated registry.  (The `mu.Lock()`
call on the returned mutex is a blocking effect outside this state
model.) -/
def AcquireLock (reg : LockRegistry) (path : String) : Nat × LockRegistry :=
  let normalizedPath := goClean path
  match regFind reg.entries normalizedPath with
  | some i => (i, reg)
  | none =>
    (reg.nextId, ⟨reg.entries ++ [(normalizedPath, reg.nextId)], reg.nextId + 1⟩)

/-- Normalisation *as an absolute path* (`filepath.Abs`): resolve against
the working directory, then clean.  This is what the specification's
"normalized absolute path" denotes; the code itself only applies
`filepath.Clean`. -/
def absNorm (cwd p : String) : String :=
  if p.data.head? = some '/' then goClean p
  else goClean (cwd ++ "/" ++ p)

/-! ## Package extraction (utils/nixutils.go:387-456)

Both extractors read a file and then parse its content; the file-reading
preamble is dropped and the functions are modelled on the content
string. -/

/-- The character class `[a-zA-Z0-9_.-]` of the shell.nix package regex. -/
def shellTokenChar (c : Char) : Bool :=
  c.isAlpha || c.isDigit || c = '_' || c = '.' || c = '-'

/-- One line against the multiline regex `^\s*([a-zA-Z0-9_.-]+)\s*$`
of `ExtractShellNixPackages`: the line matches exactly when stripping
surrounding whitespace leaves a non-empty token of the class, and the
capture is that token. -/
def lineBareToken (line : List Char) : Option (List Char) :=
  let t := goTrim line
  if t ≠ [] && t.all shellTokenChar then some t else none

/-- `ExtractShellNixPackages` (nixutils.go:387-410), on content: collect
the captures of the line-anchored regex in file order, skipping empty
captures and the tokens `with` and `pkgs`. -/
def ExtractShellNixPackages (content : String) : List String :=
  (((splitNl content.data).filterMap lineBareToken).map
      (fun cs => String.mk cs)).filter
    (fun m => m ≠ "with" && m ≠ "pkgs")

/-- Attempt to match, at the start of `cs`, the tail of the flake regex
after the literal `buildInputs`:
`\s*=\s*(?:with[^;]*;)?\s*\[\s*([^\]]+)\s*\]`.
Returns the characters between `[` and the first `]` (the regex capture
differs from this only in surrounding whitespace, which the subsequent
line scanner discards; an empty bracket pair does not match because the
capture group requires at least one character). -/
def matchFlakeTail (cs : List Char) : Option (List Char) :=
  match cs.dropWhile isGoSpace with
  | '=' :: cs1 =>
    let cs2 := cs1.dropWhile isGoSpace
    let cs3? :=
      if ("with".data).isPrefixOf cs2 then
        let rest := cs2.drop 4
        let body := rest.takeWhile (fun c => c ≠ ';')
        match rest.drop body.length with
        | ';' :: r => some r
        | _ => none
      else some cs2
    match cs3? with
    | none => none
    | some cs3 =>
      match cs3.dropWhile isGoSpace with
      | '[' :: cs4 =>
        let mid := cs4.takeWhile (fun c => c ≠ ']')
        match cs4.drop mid.length with
        | ']' :: _ => if mid = [] then none else some mid
        | _ => none
      | _ => none
  | _ => none

/-- Leftmost match of the full flake regex
`buildInputs\s*=\s*(?:with[^;]*;)?\s*\[\s*([^\]]+)\s*\]`
(`regexp.FindStringSubmatch`), returning the capture. -/
def findFlakeCapture : List Char → Option (List Char)
  | [] => none
  | c :: rest =>
    if ("buildInputs".data).isPrefixOf (c :: rest) then
      match matchFlakeTail ((c :: rest).drop 11) with
      | some cap => some cap
      | none => findFlakeCapture rest
    else findFlakeCapture rest

/-- The scanner loop of `ExtractFlakePackages`: for each line of the
captured section, skip blank and `#`-comment lines, take the first
whitespace-delimited token, strip one trailing `;`, and keep it when
non-empty. -/
def flakeSectionTokens (sect : List Char) : List String :=
  (splitNl sect).filterMap (fun line =>
    let t := goTrim line
    if t = [] || t.head? = some '#' then none
    else
      match goFields t with
      | tok :: _ =>
        let pkg := if tok.getLast? = some ';' then tok.dropLast else tok
        if pkg = [] then none else some (String.mk pkg)
      | [] => none)

/-- `ExtractFlakePackages` (nixutils.go:412-456), on content: find the
`buildInputs` bracket section with the bounded-greedy regex; absence of a
match is an error; otherwise scan the captured section for tokens. -/
def ExtractFlakePackages (content : String) : Except String (List String) :=
  match findFlakeCapture content.data with
  | none => .error "no packages found in flake.nix"
  | some sect => .ok (flakeSectionTokens sect)

/-! ## Package injection (the add command, src/unnamed/part_020:70-112) -/

/-- Outcome of the add command's content transformation: no `];` marker
found (error path), duplicates detected (warn path, no write), or the new
content to write. -/
inductive AddResult
  | noSection
  | duplicates (dups : List String)
  | ok (out : String)
  deriving DecidableEq

/-- The single line the add command builds for one package: four spaces,
the name, a newline. -/
def addLine (pkg : String) : List Char :=
  ("    " ++ pkg ++ "\n").data

/-- The add command's content logic (part_020:70-112): find the first
occurrence of `];`, abort if absent; warn and abort if any requested
package occurs as a substring of the content before that point; otherwise
splice one four-space-indented line per package immediately before the
occurrence. -/
def addPackagesToConfig (content : String) (args : List String) : AddResult :=
  match goIndex content.data "];".data with
  | none => .noSection
  | some pos =>
    let before := content.data.take pos
    let dups := args.filter (fun pkg => goContains before pkg.data)
    if dups ≠ [] then .duplicates dups
    else
      .ok (String.mk (before ++ (args.map addLine).flatten ++ content.data.drop pos))

/-! ## Package removal (src/cmd/remove.go:14-80)

The Go functions take the removal set as `map[string]bool`; it is
modelled as a list of names with exact membership. -/

/-- The shell.nix package-section opening marker tested by the remove and
list commands. -/
def shellMarker : List Char := "packages = with pkgs; [".data

/-- The closing marker `];`. -/
def closeMarker : List Char := "];".data

/-- `removePackagesFromShellNix` (remove.go:14-46), on the split lines:
walk the lines with an `inPackages` flag; a line containing the opening
marker (re)enters the section and is kept; inside the section a line
containing `];` leaves it and is kept; any other in-section line whose
first whitespace-delimited token is in the set is dropped and counted. -/
def removeShellLines (toRemove : List (List Char)) :
    List (List Char) → Bool → List (List Char) × Nat
  | [], _ => ([], 0)
  | line :: rest, inPackages =>
    let trimmed := goTrim line
    if goContains trimmed shellMarker then
      let r := removeShellLines toRemove rest true
      (line :: r.1, r.2)
    else if inPackages then
      if goContains trimmed closeMarker then
        let r := removeShellLines toRemove rest false
        (line :: r.1, r.2)
      else
        match goFields trimmed with
        | name :: _ =>
          if toRemove.contains name then
            let r := removeShellLines toRemove rest true
            (r.1, r.2 + 1)
          else
            let r := removeShellLines toRemove rest true
            (line :: r.1, r.2)
        | [] =>
          let r := removeShellLines toRemove rest true
          (line :: r.1, r.2)
    else
      let r := removeShellLines toRemove rest false
      (line :: r.1, r.2)

/-- `removePackagesFromShellNix` (remove.go:14-46). -/
def removePackagesFromShellNix (content : String) (toRemove : List String) :
    String × Nat :=
  let r := removeShellLines (toRemove.map String.data) (splitNl content.data) false
  (String.mk (joinNl r.1), r.2)

/-- `removePackagesFromFlake` (remove.go:48-80), on the split lines:
same walk with the `buildInputs` opening marker. -/
def removeFlakeLines (toRemove : List (List Char)) :
    List (List Char) → Bool → List (List Char) × Nat
  | [], _ => ([], 0)
  | line :: rest, inBuildInputs =>
    let trimmed := goTrim line
    if goContains trimmed "buildInputs".data then
      let r := removeFlakeLines toRemove rest true
      (line :: r.1, r.2)
    else if inBuildInputs && goContains trimmed closeMarker then
      let r := removeFlakeLines toRemove rest false
      (line :: r.1, r.2)
    else if inBuildInputs then
      match goFields trimmed with
      | name :: _ =>
        if toRemove.contains name then
          let r := removeFlakeLines toRemove rest true
          (r.1, r.2 + 1)
        else
          let r := removeFlakeLines toRemove rest true
          (line :: r.1, r.2)
      | [] =>
        let r := removeFlakeLines toRemove rest true
        (line :: r.1, r.2)
    else
      let r := removeFlakeLines toRemove rest false
      (line :: r.1, r.2)

/-- `removePackagesFromFlake` (remove.go:48-80). -/
def removePackagesFromFlake (content : String) (toRemove : List String) :
    String × Nat :=
  let r := removeFlakeLines (toRemove.map String.data) (splitNl content.data) false
  (String.mk (joinNl r.1), r.2)

/-! ### Specification-side characterisation of removal

A line-by-line classification: pair each line with a flag saying whether
the walk omits it, driven by a section-state transition function. -/

/-- Section-state transition of the shell walk: a line containing the
opening marker enters the section; an in-section line containing `];`
leaves it. -/
def shellNext (st : Bool) (line : List Char) : Bool :=
  let t := goTrim line
  if goContains t shellMarker then true
  else if st && goContains t closeMarker then false
  else st

/-- A line the shell walk omits: an interior section line (not an opening
or closing marker line) whose first whitespace-delimited token is one of
the names to remove. -/
def shellOmits (toRemove : List (List Char)) (st : Bool) (line : List Char) : Bool :=
  let t := goTrim line
  !goContains t shellMarker && st && !goContains t closeMarker &&
    (match goFields t with
     | name :: _ => toRemove.contains name
     | [] => false)

/-- Section-state transition of the flake walk. -/
def flakeNext (st : Bool) (line : List Char) : Bool :=
  let t := goTrim line
  if goContains t "buildInputs".data then true
  else if st && goContains t closeMarker then false
  else st

/-- A line the flake walk omits. -/
def flakeOmits (toRemove : List (List Char)) (st : Bool) (line : List Char) : Bool :=
  let t := goTrim line
  !goContains t "buildInputs".data && st && !goContains t closeMarker &&
    (match goFields t with
     | name :: _ => toRemove.contains name
     | [] => false)

/-- Annotate each line with whether the walk omits it, threading the
section state. -/
def sectionScan (omits : Bool → List Char → Bool) (next : Bool → List Char → Bool) :
    Bool → List (List Char) → List (List Char × Bool)
  | _, [] => []
  | st, l :: rest => (l, omits st l) :: sectionScan omits next (next st l) rest

/-! ## Settings store (src/unnamed/part_035)

The viper key/value store is modelled as a record of optional fields, one
per key the settings code touches.  `viper.IsSet` is presence
(`Option.isSome`); `viper.Set(key, nil)` stores `none`; `GetString` of an
absent key is `""`; `GetStringSlice`/`GetStringMapString` of an absent key
is the empty (non-nil) collection, matching the `cast` package.
`ValidateConfig` reads the raw state (no defaults are installed by it);
maps iterate in the order of the modelled list. -/

/-- The viper state restricted to the keys the settings store uses. -/
structure ViperState where
  channel : Option String
  channelUrl : Option String
  shellFormat : Option String
  defaultPackages : Option (List String)
  configVersion : Option String
  pins : Option (List (String × String))
  deriving DecidableEq

/-- `viper.GetString` of an optional field. -/
def getString (v : Option String) : String := v.getD ""

/-- `ValidatePackage` (the pure revision, tableutils.go:391-405 and
part_036:25-33): non-empty and every character alphanumeric, `-`, `_` or
`.`.  (The nixutils.go revision additionally probes `nix-env`, an external
toolchain query outside the settings store.) -/
def ValidatePackage (pkg : String) : Bool :=
  pkg ≠ "" && pkg.data.all (fun c => c.isAlpha || c.isDigit || c = '-' || c = '_' || c = '.')

/-- Success of Go `strconv.Atoi`: an optional sign, then at least one
digit, and the value fits a signed 64-bit integer. -/
def goAtoiOk (s : List Char) : Bool :=
  match s with
  | [] => false
  | c :: rest =>
    let neg := c = '-'
    let ds := if c = '-' || c = '+' then rest else c :: rest
    ds ≠ [] && ds.all Char.isDigit &&
      (let v := ds.foldl (fun a d => a * 10 + (d.toNat - 48)) 0
       if neg then v ≤ 2 ^ 63 else v ≤ 2 ^ 63 - 1)

/-- `isValidVersion` (part_035:531-546): strip one leading `v`
(`strings.TrimPrefix`), split on `.`, require exactly three parts, each
accepted by `strconv.Atoi`. -/
def isValidVersion (version : String) : Bool :=
  let v := match version.data with
           | 'v' :: rest => rest
           | cs => cs
  let parts := splitChar '.' v
  parts.length = 3 && parts.all goAtoiOk

/-- `ConfigValidationError` (part_035:441-449). -/
structure ConfigValidationError where
  key : String
  message : String
  deriving DecidableEq

/-- The channel rule of `ValidateConfig` (part_035:455-467); the local
`channelURL` variable of the Go body is inlined. -/
def channelErrs (s : ViperState) : List ConfigValidationError :=
  if getString s.channelUrl = "" then
    [⟨"channel.url", "channel URL is required"⟩]
  else if !(("nixos-".data).isPrefixOf (getString s.channelUrl).data
            || ("nixpkgs-".data).isPrefixOf (getString s.channelUrl).data) then
    [⟨"channel.url", "channel URL must start with 'nixos-' or 'nixpkgs-'"⟩]
  else []

/-- The shell-format rule (part_035:469-476). -/
def formatErrs (s : ViperState) : List ConfigValidationError :=
  if getString s.shellFormat ≠ "shell.nix" && getString s.shellFormat ≠ "flake.nix" then
    [⟨"shell.format", "shell format must be either 'shell.nix' or 'flake.nix'"⟩]
  else []

/-- The default-packages rule (part_035:478-494). -/
def packagesErrs (s : ViperState) : List ConfigValidationError :=
  match s.defaultPackages with
  | none => [⟨"default.packages", "default.packages setting is required (can be empty list)"⟩]
  | some pkgs =>
    pkgs.filterMap (fun pkg =>
      if !ValidatePackage pkg then
        some ⟨"default.packages", s!"invalid package name: {pkg}"⟩
      else none)

/-- The schema-version rule (part_035:496-508). -/
def versionErrs (s : ViperState) : List ConfigValidationError :=
  if getString s.configVersion = "" then
    [⟨"config_version", "config version is required"⟩]
  else if !isValidVersion (getString s.configVersion) then
    [⟨"config_version",
      "invalid config version: " ++ getString s.configVersion ++ " (must be semver)"⟩]
  else []

/-- The pins rule (part_035:510-526). -/
def pinsErrs (s : ViperState) : List ConfigValidationError :=
  (s.pins.getD []).flatMap (fun p =>
    (if !ValidatePackage p.1 then
       [(⟨"pins", s!"invalid package name in pins: {p.1}"⟩ : ConfigValidationError)]
     else []) ++
    (if !isValidVersion p.2 then
       [(⟨"pins", s!"invalid version for package {p.1}: {p.2}"⟩ : ConfigValidationError)]
     else []))

/-- `ValidateConfig` (part_035:451-529): run every rule and append its
violations to the accumulated list. -/
def ValidateConfig (s : ViperState) : List ConfigValidationError :=
  channelErrs s ++ formatErrs s ++ packagesErrs s ++ versionErrs s ++ pinsErrs s

/-- part_035:638-642: initialise `config_version` to `1.0.0` when unset. -/
def mig1 (p : ViperState × Bool) : ViperState × Bool :=
  if p.1.configVersion = none then ({ p.1 with configVersion := some "1.0.0" }, true)
  else p

/-- part_035:645-648: initialise `default.packages` to `[]` when unset. -/
def mig2 (p : ViperState × Bool) : ViperState × Bool :=
  if p.1.defaultPackages = none then ({ p.1 with defaultPackages := some [] }, true)
  else p

/-- part_035:651-654: initialise `shell.format` when unset. -/
def mig3 (p : ViperState × Bool) : ViperState × Bool :=
  if p.1.shellFormat = none then ({ p.1 with shellFormat := some "shell.nix" }, true)
  else p

/-- part_035:656-659: initialise `pins` when unset. -/
def mig4 (p : ViperState × Bool) : ViperState × Bool :=
  if p.1.pins = none then ({ p.1 with pins := some [] }, true)
  else p

/-- part_035:662-670: move a non-empty flat `channel` value to
`channel.url` and clear the flat key; the local `oldChannel` variable of
the Go body is inlined. -/
def mig5 (p : ViperState × Bool) : ViperState × Bool :=
  if p.1.channel ≠ none ∧ p.1.channelUrl = none then
    if getString p.1.channel ≠ "" then
      ({ p.1 with channelUrl := some (getString p.1.channel), channel := none }, true)
    else p
  else p

/-- part_035:673-676: advance `config_version` from `1.0.0` to `1.1.0`. -/
def mig6 (p : ViperState × Bool) : ViperState × Bool :=
  if getString p.1.configVersion = "1.0.0" then
    ({ p.1 with configVersion := some "1.1.0" }, true)
  else p

/-- `MigrateConfig` (part_035:633-695).  The returned flag is `needsSave`:
`true` exactly when the run persists the document (one `WriteConfig`
call, preceded by a best-effort backup). -/
def MigrateConfig (s : ViperState) : ViperState × Bool :=
  mig6 (mig5 (mig4 (mig3 (mig2 (mig1 (s, false))))))

/-- A settings state on which no migration guard fires: version present
and not `1.0.0`, the three defaulted keys present, and no pending flat
`channel` with value to move. -/
def migStable (s : ViperState) : Bool :=
  s.configVersion.isSome && (getString s.configVersion ≠ "1.0.0") &&
    s.defaultPackages.isSome && s.shellFormat.isSome && s.pins.isSome &&
    (decide (s.channel = none) || s.channelUrl.isSome || getString s.channel = "")

/-! ### Specification-side predicates and concrete settings documents -/

/-- The schema-version field passes validation: `ValidateConfig` reports
no violation under the `config_version` key. -/
def versionPasses (s : ViperState) : Bool :=
  (ValidateConfig s).all (fun e => e.key ≠ "config_version")

/-- The shape the specification asserts for the schema version: exactly
three dot-separated non-negative integers (non-empty digit strings, no
sign). -/
def threeNonNegIntParts (s : String) : Bool :=
  (splitChar '.' s.data).length = 3 &&
    (splitChar '.' s.data).all (fun p => p ≠ [] && p.all Char.isDigit)

/-- A settings document violating three independent rules at once:
missing channel, bad format, malformed version; packages and pins
valid. -/
def docThreeViolations : ViperState :=
  { channel := none
    channelUrl := none
    shellFormat := some "bad"
    defaultPackages := some ["gcc"]
    configVersion := some "not-a-version"
    pins := some [] }

/-- A settings document whose schema version has a negative middle
component, which `strconv.Atoi` nevertheless accepts. -/
def docSignedVersion : ViperState :=
  { channel := none
    channelUrl := some "nixos-unstable"
    shellFormat := some "shell.nix"
    defaultPackages := some []
    configVersion := some "1.-2.3"
    pins := some [] }

/-- A settings document already at the current schema version `1.1.0`
but with the `pins` key absent. -/
def docCurrentNoPins : ViperState :=
  { channel := none
    channelUrl := some "nixos-unstable"
    shellFormat := some "shell.nix"
    defaultPackages := some []
    configVersion := some "1.1.0"
    pins := none }

/-- A fully migrated settings document: no migration guard fires on it. -/
def docStable : ViperState :=
  { channel := none
    channelUrl := some "nixos-unstable"
    shellFormat := some "shell.nix"
    defaultPackages := some []
    configVersion := some "1.1.0"
    pins := some [] }

/-! ## Association-list lemmas for the file-system model -/

theorem fsLookup_fsErase_self (fs : FS) (p : String) :
    fsLookup (fsErase fs p) p = none := by
  induction fs with
  | nil => rfl
  | cons e rest ih =>
    by_cases h : e.1 = p
    · simpa [fsErase, List.filter, h] using ih
    · simpa [fsErase, List.filter, h, fsLookup] using ih

theorem fsLookup_fsErase_ne (fs : FS) {p q : String} (h : p ≠ q) :
    fsLookup (fsErase fs p) q = fsLookup fs q := by
  induction fs with
  | nil => rfl
  | cons e rest ih =>
    rcases e with ⟨k, n⟩
    simp only [fsErase, ne_eq, decide_not] at ih ⊢
    by_cases he : k = p
    · subst he
      simp [List.filter_cons, fsLookup, h, ih]
    · by_cases hq : k = q
      · simp [List.filter_cons, he, fsLookup, hq, Ne.symm h]
      · simp [List.filter_cons, he, fsLookup, hq, ih]

theorem fsErase_fsInsert (fs : FS) (p : String) (n : FsNode) :
    fsErase (fsInsert fs p n) p = fsErase fs p := by
  simp [fsInsert, fsErase, List.filter, List.filter_filter]

theorem fsLookup_fsInsert_self (fs : FS) (p : String) (n : FsNode) :
    fsLookup (fsInsert fs p n) p = some n := by
  simp [fsInsert, fsLookup]

theorem fsLookup_fsInsert_ne (fs : FS) {p q : String} (h : p ≠ q) (n : FsNode) :
    fsLookup (fsInsert fs p n) q = fsLookup fs q := by
  simp [fsInsert, fsLookup, h]
  exact fsLookup_fsErase_ne fs h

/-! ## Claim theorems -/

/-- Claim C1: for every file system, path, content and permission set, if
`SafeWrite` fails at any step before the final rename (temp-file creation,
write, sync, close, or chmod), then the temporary file is removed and the
node previously stored at the target path (or its absence) is exactly
preserved — the target is never left truncated or partially written.  The
hypotheses `hfresh` and `hne` state the freshness of the `os.CreateTemp`
name. -/
theorem safeWrite_preRename_failure_preserves_target
    (fs : FS) (path : String) (data : List Char) (perm : Nat) (tmp ts : String)
    (fail : WStep)
    (hfresh : fsLookup fs tmp = none) (hne : tmp ≠ path)
    (hpre : fail = .createTemp ∨ fail = .writeData ∨ fail = .syncTemp ∨
            fail = .closeTemp ∨ fail = .chmodTemp) :
    ((SafeWrite fs path data perm tmp ts (some fail)).2).isSome = true ∧
      fsLookup (SafeWrite fs path data perm tmp ts (some fail)).1 path = fsLookup fs path ∧
      fsLookup (SafeWrite fs path data perm tmp ts (some fail)).1 tmp = none := by
  rcases hpre with h | h | h | h | h <;> subst h <;>
    simp [SafeWrite, fsErase_fsInsert, fsLookup_fsErase_ne, fsLookup_fsErase_self,
      hfresh, hne]

/-- Witness for C1: a concrete failing write against an existing target
file, checked by evaluation. -/
theorem safeWrite_preRename_failure_preserves_target_witness :
    fsLookup [("f", FsNode.file ['a'] 420)] ".t" = none ∧ ".t" ≠ "f" ∧
      (((SafeWrite [("f", FsNode.file ['a'] 420)] "f" ['b'] 384 ".t" "TS"
          (some .writeData)).2).isSome = true ∧
        fsLookup (SafeWrite [("f", FsNode.file ['a'] 420)] "f" ['b'] 384 ".t" "TS"
            (some .writeData)).1 "f"
          = fsLookup [("f", FsNode.file ['a'] 420)] "f" ∧
        fsLookup (SafeWrite [("f", FsNode.file ['a'] 420)] "f" ['b'] 384 ".t" "TS"
            (some .writeData)).1 ".t" = none) :=
  ⟨by decide, by decide,
    safeWrite_preRename_failure_preserves_target [("f", FsNode.file ['a'] 420)] "f"
      ['b'] 384 ".t" "TS" .writeData (by decide) (by decide) (Or.inr (Or.inl rfl))⟩

/-- Claim C10: a path that exists but names a directory is treated as a
non-existent file: `FileExists` returns false on it, and `SafeRead` on it
fails with the does-not-exist error rather than reading. -/
theorem fileExists_false_on_dir_and_safeRead_errors
    (fs : FS) (p : String) (h : fsLookup fs p = some .dir) :
    FileExists fs p = false ∧ SafeRead fs p = .error s!"file {p} does not exist" := by
  constructor
  · simp [FileExists, h]
  · simp [SafeRead, FileExists, h]

/-- Witness for C10: a concrete file system holding a directory entry. -/
theorem fileExists_false_on_dir_and_safeRead_errors_witness :
    fsLookup [("d", FsNode.dir)] "d" = some .dir ∧
      (FileExists [("d", FsNode.dir)] "d" = false ∧
        SafeRead [("d", FsNode.dir)] "d" = .error "file d does not exist") :=
  ⟨by decide, fileExists_false_on_dir_and_safeRead_errors [("d", FsNode.dir)] "d" (by decide)⟩

theorem regFind_append_self (es : List (String × Nat)) (k : String) (i : Nat)
    (h : regFind es k = none) : regFind (es ++ [(k, i)]) k = some i := by
  induction es with
  | nil => simp [regFind]
  | cons e rest ih =>
    by_cases he : e.1 = k
    · simp [regFind, he] at h
    · simp [regFind, he] at h ⊢
      exact ih h

theorem regFind_append_of_some (es l : List (String × Nat)) {k : String} {i : Nat}
    (h : regFind es k = some i) : regFind (es ++ l) k = some i := by
  induction es with
  | nil => simp [regFind] at h
  | cons e rest ih =>
    by_cases he : e.1 = k
    · simp [regFind, he] at h ⊢
      exact h
    · simp [regFind, he] at h ⊢
      exact ih h

/-- Counterexample to claim C8 as stated: the registry is keyed by
`filepath.Clean` of the path handed in, not by its normalised absolute
form.  With working directory `/a`, the paths `/a/foo` and `foo`
normalise to the same absolute path, yet two successive acquisitions
return different lock objects. -/
theorem acquireLock_distinct_locks_same_absolute_path :
    absNorm "/a" "/a/foo" = absNorm "/a" "foo" ∧
      (AcquireLock (⟨[], 0⟩ : LockRegistry) "/a/foo").1
        ≠ (AcquireLock (AcquireLock (⟨[], 0⟩ : LockRegistry) "/a/foo").2 "foo").1 := by
  decide

/-- Claim C8 (amended): the lock registry maintains exactly one lock per
`filepath.Clean`-normalised path spelling: two acquisitions whose paths
are equal after lexical cleaning return the same lock; an existing entry
is never removed or rebound by later acquisitions; a lock is created
lazily, by appending exactly one entry on the first acquisition of its
cleaned path.  (Relative and absolute spellings of the same file clean to
different keys and therefore get distinct locks.) -/
theorem acquireLock_per_cleaned_path :
    (∀ (reg : LockRegistry) (p q : String), goClean p = goClean q →
        (AcquireLock (AcquireLock reg p).2 q).1 = (AcquireLock reg p).1) ∧
      (∀ (reg : LockRegistry) (p k : String) (i : Nat),
        regFind reg.entries k = some i →
        regFind (AcquireLock reg p).2.entries k = some i) ∧
      (∀ (reg : LockRegistry) (p : String),
        regFind reg.entries (goClean p) = none →
        (AcquireLock reg p).2.entries = reg.entries ++ [(goClean p, reg.nextId)]) := by
  refine ⟨?_, ?_, ?_⟩
  · intro reg p q h
    unfold AcquireLock
    rw [← h]
    cases hf : regFind reg.entries (goClean p) with
    | some i => simp [hf]
    | none => simp [hf, regFind_append_self _ _ _ hf]
  · intro reg p k i h
    unfold AcquireLock
    cases hf : regFind reg.entries (goClean p) with
    | some j => simpa [hf] using h
    | none =>
      simp [hf]
      exact regFind_append_of_some _ _ h
  · intro reg p h
    unfold AcquireLock
    simp [h]

/-- Witness for the amended C8: two spellings of one path that clean to
the same key share the lock, on a non-empty registry. -/
theorem acquireLock_per_cleaned_path_witness :
    goClean "/a/./foo" = goClean "/a/foo" ∧
      (AcquireLock (AcquireLock (⟨[("x", 5)], 6⟩ : LockRegistry) "/a/./foo").2 "/a/foo").1
        = (AcquireLock (⟨[("x", 5)], 6⟩ : LockRegistry) "/a/./foo").1 :=
  ⟨by decide, acquireLock_per_cleaned_path.1 ⟨[("x", 5)], 6⟩ "/a/./foo" "/a/foo" (by decide)⟩

/-- Counterexample to claim C2 as stated: on the marker-free content
`hello`, the shell extractor returns a non-empty list (every bare
single-token line is collected, marker or not) and the flake extractor
returns an error rather than an empty list. -/
theorem extract_absent_marker_counterexample :
    ExtractShellNixPackages "hello" = ["hello"] ∧
      ExtractShellNixPackages "hello" ≠ [] ∧
      ExtractFlakePackages "hello" = .error "no packages found in flake.nix" := by
  decide

/-- Claim C2 (amended): the shell extractor never returns an error, and
returns the empty list exactly on content none of whose lines is a bare
package token other than `with`/`pkgs`; the flake extractor returns the
error `no packages found in flake.nix` whenever the `buildInputs` bracket
marker is absent or malformed (no regex match), instead of an empty
list. -/
theorem extract_absent_marker_amended :
    (∀ content : String,
        (∀ t ∈ (splitNl content.data).filterMap lineBareToken,
            String.mk t = "with" ∨ String.mk t = "pkgs") →
        ExtractShellNixPackages content = []) ∧
      (∀ content : String, findFlakeCapture content.data = none →
        ExtractFlakePackages content = .error "no packages found in flake.nix") := by
  constructor
  · intro content h
    unfold ExtractShellNixPackages
    rw [List.filter_eq_nil_iff]
    intro m hm
    rw [List.mem_map] at hm
    obtain ⟨t, ht, rfl⟩ := hm
    rcases h t ht with h1 | h1 <;> simp [h1]
  · intro content h
    simp [ExtractFlakePackages, h]

/-- Witness for the amended C2: content with no bare-token line and no
`buildInputs` marker degrades to the empty list (shell) and the
no-packages error (flake). -/
theorem extract_absent_marker_amended_witness :
    ExtractShellNixPackages "x = 1;" = [] ∧
      ExtractFlakePackages "x = 1;" = .error "no packages found in flake.nix" :=
  ⟨extract_absent_marker_amended.1 "x = 1;" (by decide),
   extract_absent_marker_amended.2 "x = 1;" (by decide)⟩

theorem goIndexAux_le (sub : List Char) :
    ∀ (cs : List Char) (i j : Nat), goIndexAux sub cs i = some j → j ≤ i + cs.length := by
  intro cs
  induction cs with
  | nil =>
    intro i j h
    simp only [goIndexAux] at h
    split at h
    · simp at h
      omega
    · simp at h
  | cons c rest ih =>
    intro i j h
    simp only [goIndexAux] at h
    split at h
    · simp at h
      omega
    · have := ih (i + 1) j h
      simp [List.length_cons]
      omega

theorem goIndex_le {cs sub : List Char} {j : Nat} (h : goIndex cs sub = some j) :
    j ≤ cs.length := by
  simpa using goIndexAux_le sub cs 0 j h

/-- Counterexample to claim C3 as stated: the add command aborts without
inserting anything when a requested name occurs as a substring of the
content before the first `];` (here `gcc`, already listed), although the
content has a package section and the list is non-empty; and when it does
insert, the new line carries a fixed four-space indentation even though
the existing entries are indented with two spaces, so the inserted line
is not indented consistently with them. -/
theorem addPackages_counterexample :
    addPackagesToConfig "packages = with pkgs; [\n    gcc\n];\n" ["gcc"]
        = .duplicates ["gcc"] ∧
      addPackagesToConfig "packages = with pkgs; [\n  gcc\n];\n" ["go"]
        = .ok "packages = with pkgs; [\n  gcc\n    go\n];\n" ∧
      ((splitNl ("packages = with pkgs; [\n  gcc\n    go\n];\n").data).map
          (fun l => (l.takeWhile (fun c => c = ' ')).length)) = [0, 2, 4, 0, 0] := by
  decide

/-- Claim C3 (amended): for content containing `];` and a list of new
names none of which occurs as a substring of the content before the first
`];`, the add command inserts exactly one line per package, each indented
with exactly four spaces, immediately before the first `];` occurrence
(the close of the package section), preserving every byte before and
after the insertion point. -/
theorem addPackages_inserts_before_close
    (content : String) (args : List String) (pos : Nat)
    (hpos : goIndex content.data "];".data = some pos)
    (hnodup : args.filter (fun pkg => goContains (content.data.take pos) pkg.data) = []) :
    ∃ out : String,
      addPackagesToConfig content args = .ok out ∧
      out.data.take pos = content.data.take pos ∧
      out.data.drop (pos + ((args.map addLine).flatten).length) = content.data.drop pos ∧
      (out.data.drop pos).take ((args.map addLine).flatten).length
        = (args.map addLine).flatten := by
  have hlen : pos ≤ content.data.length := goIndex_le hpos
  have htake : (content.data.take pos).length = pos := by
    rw [List.length_take]
    exact Nat.min_eq_left hlen
  set pre := content.data.take pos with hpre
  set ins := (args.map addLine).flatten with hins
  set suf := content.data.drop pos with hsuf
  refine ⟨String.mk (pre ++ ins ++ suf), ?_, ?_, ?_, ?_⟩
  · unfold addPackagesToConfig
    rw [hpos]
    simp [hnodup, hpre, hins, hsuf]
  · show (pre ++ ins ++ suf).take pos = pre
    rw [List.append_assoc, ← htake, List.take_left]
  · show (pre ++ ins ++ suf).drop (pos + ins.length) = suf
    rw [← htake, ← List.length_append pre ins, List.append_assoc, ← List.append_assoc,
      List.drop_left]
  · show ((pre ++ ins ++ suf).drop pos).take ins.length = ins
    rw [← htake, List.append_assoc, List.drop_left, List.take_left]

theorem removeShellLines_eq_scan (rm : List (List Char)) :
    ∀ (lines : List (List Char)) (st : Bool),
      removeShellLines rm lines st =
        ((((sectionScan (shellOmits rm) shellNext st lines).filter
            (fun p => !p.2)).map Prod.fst),
         ((sectionScan (shellOmits rm) shellNext st lines).filter (fun p => p.2)).length) := by
  intro lines
  induction lines with
  | nil => intro st; rfl
  | cons l rest ih =>
    intro st
    by_cases h1 : goContains (goTrim l) shellMarker = true
    · simp [removeShellLines, sectionScan, shellOmits, shellNext, h1, ih]
    · cases st with
      | false =>
        simp [removeShellLines, sectionScan, shellOmits, shellNext, h1, ih]
      | true =>
        by_cases h2 : goContains (goTrim l) closeMarker = true
        · simp [removeShellLines, sectionScan, shellOmits, shellNext, h1, h2, ih]
        · cases hf : goFields (goTrim l) with
          | nil =>
            simp [removeShellLines, sectionScan, shellOmits, shellNext, h1, h2, hf, ih]
          | cons name restf =>
            by_cases hmem : name ∈ rm
            · simp [removeShellLines, sectionScan, shellOmits, shellNext, h1, h2, hf,
                hmem, ih]
            · simp [removeShellLines, sectionScan, shellOmits, shellNext, h1, h2, hf,
                hmem, ih]

theorem removeFlakeLines_eq_scan (rm : List (List Char)) :
    ∀ (lines : List (List Char)) (st : Bool),
      removeFlakeLines rm lines st =
        ((((sectionScan (flakeOmits rm) flakeNext st lines).filter
            (fun p => !p.2)).map Prod.fst),
         ((sectionScan (flakeOmits rm) flakeNext st lines).filter (fun p => p.2)).length) := by
  intro lines
  induction lines with
  | nil => intro st; rfl
  | cons l rest ih =>
    intro st
    by_cases h1 : goContains (goTrim l) "buildInputs".data = true
    · simp [removeFlakeLines, sectionScan, flakeOmits, flakeNext, h1, ih]
    · cases st with
      | false =>
        simp [removeFlakeLines, sectionScan, flakeOmits, flakeNext, h1, ih]
      | true =>
        by_cases h2 : goContains (goTrim l) closeMarker = true
        · simp [removeFlakeLines, sectionScan, flakeOmits, flakeNext, h1, h2, ih]
        · cases hf : goFields (goTrim l) with
          | nil =>
            simp [removeFlakeLines, sectionScan, flakeOmits, flakeNext, h1, h2, hf, ih]
          | cons name restf =>
            by_cases hmem : name ∈ rm
            · simp [removeFlakeLines, sectionScan, flakeOmits, flakeNext, h1, h2, hf,
                hmem, ih]
            · simp [removeFlakeLines, sectionScan, flakeOmits, flakeNext, h1, h2, hf,
                hmem, ih]

/-- Claim C4: for every descriptor content and removal set, both removal
functions keep a line exactly when it is not an interior package-section
line whose first whitespace-delimited token equals a name in the set, and
return the rewritten content (the kept lines re-joined) together with the
count of the omitted lines; a count of zero is an ordinary outcome (the
functions are total and return the content unchanged).  In particular,
removing `gcc` from the example section listing `gcc` and `python3` keeps
only `python3` with a count of 1, and removing an absent name returns the
content unchanged with a count of 0. -/
theorem removePackages_omits_exactly_matching :
    (∀ (content : String) (toRemove : List String),
        removePackagesFromShellNix content toRemove
          = (String.mk (joinNl (((sectionScan (shellOmits (toRemove.map String.data))
                shellNext false (splitNl content.data)).filter
                (fun p => !p.2)).map Prod.fst)),
             ((sectionScan (shellOmits (toRemove.map String.data)) shellNext false
                (splitNl content.data)).filter (fun p => p.2)).length)) ∧
      (∀ (content : String) (toRemove : List String),
        removePackagesFromFlake content toRemove
          = (String.mk (joinNl (((sectionScan (flakeOmits (toRemove.map String.data))
                flakeNext false (splitNl content.data)).filter
                (fun p => !p.2)).map Prod.fst)),
             ((sectionScan (flakeOmits (toRemove.map String.data)) flakeNext false
                (splitNl content.data)).filter (fun p => p.2)).length)) ∧
      removePackagesFromShellNix "packages = with pkgs; [\n    gcc\n    python3\n];" ["gcc"]
        = ("packages = with pkgs; [\n    python3\n];", 1) ∧
      removePackagesFromShellNix "packages = with pkgs; [\n    gcc\n    python3\n];" ["nodejs"]
        = ("packages = with pkgs; [\n    gcc\n    python3\n];", 0) ∧
      removePackagesFromFlake "buildInputs = with pkgs; [\n    gcc\n    python3\n];" ["gcc"]
        = ("buildInputs = with pkgs; [\n    python3\n];", 1) := by
  refine ⟨?_, ?_, by decide, by decide, by decide⟩
  · intro content toRemove
    simp [removePackagesFromShellNix, removeShellLines_eq_scan]
  · intro content toRemove
    simp [removePackagesFromFlake, removeFlakeLines_eq_scan]

/-- Witness for the amended C3: a concrete insertion. -/
theorem addPackages_inserts_before_close_witness :
    goIndex ("packages = with pkgs; [\n  gcc\n];\n").data "];".data = some 30 ∧
      (∃ out : String,
        addPackagesToConfig "packages = with pkgs; [\n  gcc\n];\n" ["go"] = .ok out ∧
        out.data.take 30 = ("packages = with pkgs; [\n  gcc\n];\n").data.take 30 ∧
        out.data.drop (30 + ((["go"].map addLine).flatten).length)
          = ("packages = with pkgs; [\n  gcc\n];\n").data.drop 30 ∧
        (out.data.drop 30).take ((["go"].map addLine).flatten).length
          = (["go"].map addLine).flatten) :=
  ⟨by decide,
    addPackages_inserts_before_close "packages = with pkgs; [\n  gcc\n];\n" ["go"] 30
      (by decide) (by decide)⟩

/-- Claim C5: validation returns the full list of all violated rules in
one result — the result is exactly the concatenation of each rule's
violations, each rule a function of its own fields only — and a document
violating three independent rules at once yields exactly three
violations, one per rule. -/
theorem validateConfig_batches_all_violations :
    (∀ s : ViperState, ValidateConfig s
        = channelErrs s ++ formatErrs s ++ packagesErrs s ++ versionErrs s ++ pinsErrs s) ∧
      (ValidateConfig docThreeViolations).length = 3 ∧
      (ValidateConfig docThreeViolations).map (fun e => e.key)
        = ["channel.url", "shell.format", "config_version"] :=
  ⟨fun _ => rfl, by decide, by decide⟩

theorem channelErrs_all_not_version (s : ViperState) :
    (channelErrs s).all (fun e => e.key ≠ "config_version") = true := by
  unfold channelErrs
  split
  · decide
  · split <;> decide

theorem formatErrs_all_not_version (s : ViperState) :
    (formatErrs s).all (fun e => e.key ≠ "config_version") = true := by
  unfold formatErrs
  split <;> decide

theorem packagesErrs_all_not_version (s : ViperState) :
    (packagesErrs s).all (fun e => e.key ≠ "config_version") = true := by
  unfold packagesErrs
  cases s.defaultPackages with
  | none => decide
  | some pkgs =>
    rw [List.all_eq_true]
    intro e he
    rw [List.mem_filterMap] at he
    obtain ⟨pkg, _, hpe⟩ := he
    split at hpe
    · cases hpe
      rfl
    · cases hpe

theorem pinsErrs_all_not_version (s : ViperState) :
    (pinsErrs s).all (fun e => e.key ≠ "config_version") = true := by
  unfold pinsErrs
  rw [List.all_eq_true]
  intro e he
  rw [List.mem_flatMap] at he
  obtain ⟨p, _, hpe⟩ := he
  rw [List.mem_append] at hpe
  rcases hpe with hpe | hpe <;> split at hpe <;> simp at hpe <;> subst hpe <;> rfl

/-- Counterexample to claim C7 as stated: the version string `1.-2.3` is
not three dot-separated non-negative integers (its middle component is
negative), yet it passes validation, because each component is parsed
with `strconv.Atoi`, which accepts a sign. -/
theorem version_validation_counterexample :
    getString docSignedVersion.configVersion = "1.-2.3" ∧
      threeNonNegIntParts "1.-2.3" = false ∧
      isValidVersion "1.-2.3" = true ∧
      versionPasses docSignedVersion = true := by
  decide

/-- Claim C7 (amended): the schema-version field passes validation iff it
is non-empty and, after stripping one optional leading `v`, consists of
exactly three dot-separated components each accepted by `strconv.Atoi`
(optional sign and 64-bit range — so negative components are
accepted). -/
theorem version_validation_amended (s : ViperState) :
    versionPasses s = true ↔
      (getString s.configVersion ≠ "" ∧ isValidVersion (getString s.configVersion) = true) := by
  unfold versionPasses ValidateConfig
  simp only [List.all_append, Bool.and_eq_true]
  rw [channelErrs_all_not_version s, formatErrs_all_not_version s,
    packagesErrs_all_not_version s, pinsErrs_all_not_version s]
  simp only [true_and, and_true]
  unfold versionErrs
  split
  · rename_i hv
    simp [hv]
  · split
    · rename_i hv hvalid
      simp only [Bool.not_eq_eq_eq_not, Bool.not_true] at hvalid
      simp [hv, hvalid]
    · rename_i hv hvalid
      simp only [Bool.not_eq_eq_eq_not, Bool.not_true, Bool.not_eq_false] at hvalid
      simp [hv, hvalid]

/-- Witness for the amended C7: a concrete document whose version field
passes validation. -/
theorem version_validation_amended_witness :
    versionPasses docStable = true :=
  (version_validation_amended docStable).mpr ⟨by decide, by decide⟩

theorem mig1_version_isSome (p : ViperState × Bool) :
    (mig1 p).1.configVersion.isSome = true := by
  unfold mig1
  split <;> simp_all [Option.isSome_iff_ne_none]

theorem mig2_keeps_version (p : ViperState × Bool) :
    (mig2 p).1.configVersion = p.1.configVersion := by
  unfold mig2
  split <;> rfl

theorem mig3_keeps_version (p : ViperState × Bool) :
    (mig3 p).1.configVersion = p.1.configVersion := by
  unfold mig3
  split <;> rfl

theorem mig4_keeps_version (p : ViperState × Bool) :
    (mig4 p).1.configVersion = p.1.configVersion := by
  unfold mig4
  split <;> rfl

theorem mig5_keeps_version (p : ViperState × Bool) :
    (mig5 p).1.configVersion = p.1.configVersion := by
  unfold mig5
  split
  · split <;> rfl
  · rfl

theorem mig6_version_isSome (p : ViperState × Bool)
    (h : p.1.configVersion.isSome = true) :
    (mig6 p).1.configVersion.isSome = true := by
  unfold mig6
  split <;> simp_all

theorem mig6_version_ne (p : ViperState × Bool) :
    getString (mig6 p).1.configVersion ≠ "1.0.0" := by
  unfold mig6
  split
  · intro h
    simp [getString] at h
  · rename_i h
    exact h

theorem mig2_dp_isSome (p : ViperState × Bool) :
    (mig2 p).1.defaultPackages.isSome = true := by
  unfold mig2
  split <;> simp_all [Option.isSome_iff_ne_none]

theorem mig3_keeps_dp (p : ViperState × Bool) :
    (mig3 p).1.defaultPackages = p.1.defaultPackages := by
  unfold mig3
  split <;> rfl

theorem mig4_keeps_dp (p : ViperState × Bool) :
    (mig4 p).1.defaultPackages = p.1.defaultPackages := by
  unfold mig4
  split <;> rfl

theorem mig5_keeps_dp (p : ViperState × Bool) :
    (mig5 p).1.defaultPackages = p.1.defaultPackages := by
  unfold mig5
  split
  · split <;> rfl
  · rfl

theorem mig6_keeps_dp (p : ViperState × Bool) :
    (mig6 p).1.defaultPackages = p.1.defaultPackages := by
  unfold mig6
  split <;> rfl

theorem mig3_sf_isSome (p : ViperState × Bool) :
    (mig3 p).1.shellFormat.isSome = true := by
  unfold mig3
  split <;> simp_all [Option.isSome_iff_ne_none]

theorem mig4_keeps_sf (p : ViperState × Bool) :
    (mig4 p).1.shellFormat = p.1.shellFormat := by
  unfold mig4
  split <;> rfl

theorem mig5_keeps_sf (p : ViperState × Bool) :
    (mig5 p).1.shellFormat = p.1.shellFormat := by
  unfold mig5
  split
  · split <;> rfl
  · rfl

theorem mig6_keeps_sf (p : ViperState × Bool) :
    (mig6 p).1.shellFormat = p.1.shellFormat := by
  unfold mig6
  split <;> rfl

theorem mig4_pins_isSome (p : ViperState × Bool) :
    (mig4 p).1.pins.isSome = true := by
  unfold mig4
  split <;> simp_all [Option.isSome_iff_ne_none]

theorem mig5_keeps_pins (p : ViperState × Bool) :
    (mig5 p).1.pins = p.1.pins := by
  unfold mig5
  split
  · split <;> rfl
  · rfl

theorem mig6_keeps_pins (p : ViperState × Bool) :
    (mig6 p).1.pins = p.1.pins := by
  unfold mig6
  split <;> rfl

theorem mig5_channel_resolved (p : ViperState × Bool) :
    ((mig5 p).1.channel = none ∨ (mig5 p).1.channelUrl.isSome = true) ∨
      getString (mig5 p).1.channel = "" := by
  unfold mig5
  split
  · split
    · left
      left
      rfl
    · rename_i hcond hne
      right
      simpa using hne
  · rename_i hcond
    rw [not_and_or] at hcond
    rcases hcond with h | h
    · left
      left
      simpa using h
    · left
      right
      simpa [Option.isSome_iff_ne_none] using h

theorem mig6_keeps_channel (p : ViperState × Bool) :
    (mig6 p).1.channel = p.1.channel := by
  unfold mig6
  split <;> rfl

theorem mig6_keeps_channelUrl (p : ViperState × Bool) :
    (mig6 p).1.channelUrl = p.1.channelUrl := by
  unfold mig6
  split <;> rfl

theorem migrate_result_stable (s : ViperState) :
    migStable (MigrateConfig s).1 = true := by
  unfold MigrateConfig
  simp only [migStable, Bool.and_eq_true, Bool.or_eq_true, decide_eq_true_eq,
    ne_eq]
  refine ⟨⟨⟨⟨⟨?_, ?_⟩, ?_⟩, ?_⟩, ?_⟩, ?_⟩
  · apply mig6_version_isSome
    rw [mig5_keeps_version, mig4_keeps_version, mig3_keeps_version, mig2_keeps_version]
    exact mig1_version_isSome _
  · exact mig6_version_ne _
  · rw [mig6_keeps_dp, mig5_keeps_dp, mig4_keeps_dp, mig3_keeps_dp]
    exact mig2_dp_isSome _
  · rw [mig6_keeps_sf, mig5_keeps_sf, mig4_keeps_sf]
    exact mig3_sf_isSome _
  · rw [mig6_keeps_pins, mig5_keeps_pins]
    exact mig4_pins_isSome _
  · rw [mig6_keeps_channel, mig6_keeps_channelUrl]
    exact mig5_channel_resolved _

theorem migrate_noop_on_stable (s : ViperState) (h : migStable s = true) :
    MigrateConfig s = (s, false) := by
  simp only [migStable, Bool.and_eq_true, Bool.or_eq_true, decide_eq_true_eq,
    ne_eq, Option.isSome_iff_ne_none] at h
  obtain ⟨⟨⟨⟨⟨h1, h2⟩, h3⟩, h4⟩, h5⟩, h6⟩ := h
  have e1 : mig1 (s, false) = (s, false) := by
    unfold mig1
    exact if_neg h1
  have e2 : mig2 (s, false) = (s, false) := by
    unfold mig2
    exact if_neg h3
  have e3 : mig3 (s, false) = (s, false) := by
    unfold mig3
    exact if_neg h4
  have e4 : mig4 (s, false) = (s, false) := by
    unfold mig4
    exact if_neg h5
  have e5 : mig5 (s, false) = (s, false) := by
    unfold mig5
    split
    · rename_i hcond
      split
      · rename_i hne
        exfalso
        rcases h6 with (h | h) | h
        · exact hcond.1 h
        · exact h hcond.2
        · exact hne h
      · rfl
    · rfl
  have e6 : mig6 (s, false) = (s, false) := by
    unfold mig6
    exact if_neg h2
  unfold MigrateConfig
  rw [e1, e2, e3, e4, e5, e6]

/-- Counterexample to claim C6 as stated: a document already at the
current schema version `1.1.0` but missing the `pins` key still triggers
a write when migrated (the guard initialising `pins` fires), so being at
the current schema version alone does not make `migrate` a no-op. -/
theorem migrateConfig_writes_at_current_version :
    docCurrentNoPins.configVersion = some "1.1.0" ∧
      (MigrateConfig docCurrentNoPins).2 = true := by
  decide

/-- Claim C6 (amended): migration is idempotent — the second of two
successive runs changes nothing and performs no write, so two runs yield
the same final document as one and perform at most one write — and a
fully migrated document (current schema version, the defaulted keys
present, no pending flat `channel` value) is a no-op that performs no
write. -/
theorem migrateConfig_idempotent :
    (∀ s : ViperState,
        MigrateConfig (MigrateConfig s).1 = ((MigrateConfig s).1, false)) ∧
      (∀ s : ViperState, migStable s = true → MigrateConfig s = (s, false)) :=
  ⟨fun s => migrate_noop_on_stable _ (migrate_result_stable s), migrate_noop_on_stable⟩

/-- Witness for the amended C6: a concrete fully migrated document. -/
theorem migrateConfig_idempotent_witness :
    migStable docStable = true ∧ MigrateConfig docStable = (docStable, false) :=
  ⟨by decide, migrateConfig_idempotent.2 docStable (by decide)⟩

end NSM
